import Mathlib

/-!
Verification of the dhall-rust front end (AST, rule-dispatch parser
and import resolver) against its natural-language specification.

The Rust sources are shallowly embedded:
- machine integers `usize` / `isize` become `Nat` / `Int` with the checked
  arithmetic (`checked_add`, `checked_sub`, `checked_neg`) made explicit
  against the 64-bit bounds;
- `f64` values are represented by their IEEE-754 bit pattern (a `Nat`),
  which is exactly the view `NaiveDouble`'s `PartialEq` takes of them
  (`to_bits` equality);
- fallible Rust code returning `Result`/`Option` becomes `Except`/`Option`;
  a Rust panic (`unwrap`, `unimplemented`) is modelled as `Option.none`.
-/

namespace Dhall

/-! ## `NaiveDouble` (src/dhall_syntax/src/core/expr.rs, lines 46-68)

`NaiveDouble` wraps an `f64`; its `PartialEq` compares `to_bits()`.  We
represent the wrapped `f64` by its IEEE-754 bit pattern, so `to_bits` is
the identity on the representation; this is faithful because `to_bits` is
injective on `f64` values. -/

/-- Double with bitwise equality: the `f64` is carried as its bit pattern. -/
structure NaiveDouble where
  bits : Nat
deriving DecidableEq, Repr

namespace NaiveDouble

/-- The `PartialEq` impl: `self.0.to_bits() == other.0.to_bits()`. -/
def beq (a b : NaiveDouble) : Bool :=
  a.bits == b.bits

/-- Bit pattern of Rust's `std::f64::NAN` (the quiet NaN `0/0`). -/
def nanBits : Nat := 0x7ff8000000000000

/-- Bit pattern of `+0.0`. -/
def posZeroBits : Nat := 0

/-- Bit pattern of `-0.0` (sign bit set). -/
def negZeroBits : Nat := 0x8000000000000000

/-- The NaN double literal produced by the parser's `NaN_raw` rule. -/
def nan : NaiveDouble := ⟨nanBits⟩

/-- The `+0.0` double literal. -/
def posZero : NaiveDouble := ⟨posZeroBits⟩

/-- The `-0.0` double literal. -/
def negZero : NaiveDouble := ⟨negZeroBits⟩

end NaiveDouble

/-! ## `V` and `shift` (src/dhall_syntax/src/core/expr.rs, lines 78-96 and 436-460) -/

/-- `usize::MAX` on a 64-bit target. -/
def USIZE_MAX : Nat := 2 ^ 64 - 1

/-- `isize::MIN` on a 64-bit target. -/
def ISIZE_MIN : Int := -(2 ^ 63)

/-- `isize::checked_neg`: fails exactly at `isize::MIN`. -/
def checked_neg (i : Int) : Option Int :=
  if i = ISIZE_MIN then none else some (-i)

/-- `usize::checked_sub`: fails when the subtrahend exceeds the minuend. -/
def checked_sub (u v : Nat) : Option Nat :=
  if v ≤ u then some (u - v) else none

/-- `usize::checked_add`: fails when the sum exceeds `usize::MAX`. -/
def checked_add (u v : Nat) : Option Nat :=
  if u + v ≤ USIZE_MAX then some (u + v) else none

/-- `add_ui`: add an `isize` to a `usize` with all the checks of the source
(`u.checked_sub(i.checked_neg()? as usize)?` when `i < 0`, else
`u.checked_add(i as usize)?`). -/
def add_ui (u : Nat) (i : Int) : Option Nat :=
  if i < 0 then do
    let j ← checked_neg i
    checked_sub u j.toNat
  else checked_add u i.toNat

/-- A label is a variable/field name. -/
abbrev Label := String

/-- Bound variable: a name together with a de Bruijn index
(`struct V<Label>(pub Label, pub usize)`). -/
structure V where
  name : Label
  index : Nat
deriving DecidableEq, Repr

namespace V

/-- `V::shift(&self, delta, var)`: with `var = V(x, n)` the binder and
`self = V(y, m)` the reference, returns `V(y, add_ui(m, delta)?)` when
`x == y && n <= m`, else `V(y, m)` unchanged. -/
def shift (v : V) (delta : Int) (var : V) : Option V :=
  let x := var.name
  let n := var.index
  let y := v.name
  let m := v.index
  if x = y ∧ n ≤ m then
    match add_ui m delta with
    | none => none
    | some k => some ⟨y, k⟩
  else
    some ⟨y, m⟩

end V

/-! ## The AST (src/dhall_syntax/src/core/expr.rs, lines 70-238)

`ExprF<SubExpr, Embed>` is the one-level node shape; `Expr<Embed>` ties the
recursive knot through `SubExpr`, whose equality ignores the source span.
We embed the recursive type directly (spans are dropped, which is faithful
for every equality/traversal claim since `SubExpr`'s `PartialEq` ignores
them).  `DupTreeMap` / `DupTreeSet` (whose sources are not part of the
given scope) are carried as association lists, and `InterpolatedText` as a
list of chunks, each a literal text run or an interpolated subexpression,
per the spec's data-model section. -/

/-- Constants for a pure type system. -/
inductive Const where
  | type
  | kind
  | sort
deriving DecidableEq, Repr

/-- Binary operators, in precedence order (lowest first). -/
inductive BinOp where
  | importAlt
  | boolOr
  | naturalPlus
  | textAppend
  | listAppend
  | boolAnd
  | recursiveRecordMerge
  | rightBiasedRecordMerge
  | recursiveRecordTypeMerge
  | naturalTimes
  | boolEQ
  | boolNE
  | equivalence
deriving DecidableEq, Repr

/-- Built-in names. -/
inductive Builtin where
  | bool
  | natural
  | integer
  | double
  | text
  | list
  | optional
  | optionalNone
  | naturalBuild
  | naturalFold
  | naturalIsZero
  | naturalEven
  | naturalOdd
  | naturalToInteger
  | naturalShow
  | naturalSubtract
  | integerToDouble
  | integerShow
  | doubleShow
  | listBuild
  | listFold
  | listLength
  | listHead
  | listLast
  | listIndexed
  | listReverse
  | optionalFold
  | optionalBuild
  | textShow
deriving DecidableEq, Repr

/-- Syntax tree for expressions (`ExprF` with the recursion tied and the
span annotation dropped).  `E` is the embedded-leaf type: an import
descriptor before resolution, an empty type after. -/
inductive Expr (E : Type) where
  | const (c : Const)
  | var (v : V)
  | lam (l : Label) (ty body : Expr E)
  | pi (l : Label) (ty body : Expr E)
  | app (fn arg : Expr E)
  | letIn (l : Label) (ty : Option (Expr E)) (val body : Expr E)
  | annot (a b : Expr E)
  | assert (a : Expr E)
  | builtin (b : Builtin)
  | binOp (op : BinOp) (l r : Expr E)
  | boolLit (b : Bool)
  | boolIf (c t e : Expr E)
  | naturalLit (n : Nat)
  | integerLit (n : Int)
  | doubleLit (d : NaiveDouble)
  | textLit (chunks : List (Label ⊕ Expr E))
  | emptyListLit (ty : Expr E)
  | neListLit (xs : List (Expr E))
  | someLit (x : Expr E)
  | recordType (m : List (Label × Expr E))
  | recordLit (m : List (Label × Expr E))
  | unionType (m : List (Label × Option (Expr E)))
  | merge (a b : Expr E) (ty : Option (Expr E))
  | field (e : Expr E) (l : Label)
  | projection (e : Expr E) (ls : List Label)
  | embed (e : E)

/-! ## `traverse_resolve` (src/dhall_syntax/src/core/expr.rs, lines 328-351)

`traverse_resolve_with_visitor` special-cases `BinOp(ImportAlt, l, r)`:

    l.as_ref().traverse_resolve_with_visitor(visitor)
        .or(r.as_ref().traverse_resolve_with_visitor(visitor))

Note that `Result::or` is an ordinary method call: its argument — the
resolution of `r` — is evaluated eagerly, before `or` inspects the left
result.  Every other node shape is handled by `ResolveVisitor` (in
visitor.rs, which is not part of the given scope).  Modelled from the
spec: the visitor recurses structurally into each child with this same
function, left to right, aborting at the first failure, and applies the
embed callback at each `Embed` leaf.

The embedding threads, next to the `Except` result, the list of embed
leaves the callback was invoked on, in invocation order, so that claims
about when the callback runs are expressible. -/

/-- `Result::or`: keep the left value if `Ok`, otherwise the right result. -/
def exceptOr {Err α : Type} (a b : Except Err α) : Except Err α :=
  match a with
  | .ok v => .ok v
  | .error _ => b

/-- Sequencing for the traversal: on success continue (concatenating the
invocation logs); on failure stop, never running the continuation. -/
def rBind {E Err α β : Type} (x : Except Err α × List E)
    (g : α → Except Err β × List E) : Except Err β × List E :=
  match x with
  | (Except.ok a, log) =>
    match g a with
    | (r, log2) => (r, log ++ log2)
  | (Except.error e, log) => (Except.error e, log)

/-- A pure traversal step: no failure, no callback invocation. -/
def rPure {E Err α : Type} (a : α) : Except Err α × List E :=
  (Except.ok a, [])

mutual

/-- `traverse_resolve` on one expression, with the invocation log. -/
def resolveE {E E2 Err : Type} (f : E → Except Err E2) :
    Expr E → Except Err (Expr E2) × List E
  | .const c => rPure (.const c)
  | .var v => rPure (.var v)
  | .lam l ty body =>
    rBind (resolveE f ty) fun ty2 =>
      rBind (resolveE f body) fun body2 => rPure (.lam l ty2 body2)
  | .pi l ty body =>
    rBind (resolveE f ty) fun ty2 =>
      rBind (resolveE f body) fun body2 => rPure (.pi l ty2 body2)
  | .app fn arg =>
    rBind (resolveE f fn) fun fn2 =>
      rBind (resolveE f arg) fun arg2 => rPure (.app fn2 arg2)
  | .letIn l ty val body =>
    rBind (resolveO f ty) fun ty2 =>
      rBind (resolveE f val) fun val2 =>
        rBind (resolveE f body) fun body2 => rPure (.letIn l ty2 val2 body2)
  | .annot a b =>
    rBind (resolveE f a) fun a2 =>
      rBind (resolveE f b) fun b2 => rPure (.annot a2 b2)
  | .assert a => rBind (resolveE f a) fun a2 => rPure (.assert a2)
  | .builtin b => rPure (.builtin b)
  | .binOp BinOp.importAlt l r =>
    -- the ImportAlt special case, from the source: both branches are
    -- resolved (`or`'s argument is eager), the left result wins when Ok
    let xl := resolveE f l
    let xr := resolveE f r
    (exceptOr xl.1 xr.1, xl.2 ++ xr.2)
  | .binOp op l r =>
    rBind (resolveE f l) fun l2 =>
      rBind (resolveE f r) fun r2 => rPure (.binOp op l2 r2)
  | .boolLit b => rPure (.boolLit b)
  | .boolIf c t e =>
    rBind (resolveE f c) fun c2 =>
      rBind (resolveE f t) fun t2 =>
        rBind (resolveE f e) fun e2 => rPure (.boolIf c2 t2 e2)
  | .naturalLit n => rPure (.naturalLit n)
  | .integerLit n => rPure (.integerLit n)
  | .doubleLit d => rPure (.doubleLit d)
  | .textLit chunks =>
    rBind (resolveC f chunks) fun cs => rPure (.textLit cs)
  | .emptyListLit ty =>
    rBind (resolveE f ty) fun ty2 => rPure (.emptyListLit ty2)
  | .neListLit xs => rBind (resolveL f xs) fun ys => rPure (.neListLit ys)
  | .someLit x => rBind (resolveE f x) fun y => rPure (.someLit y)
  | .recordType m => rBind (resolveP f m) fun m2 => rPure (.recordType m2)
  | .recordLit m => rBind (resolveP f m) fun m2 => rPure (.recordLit m2)
  | .unionType m => rBind (resolvePO f m) fun m2 => rPure (.unionType m2)
  | .merge a b ty =>
    rBind (resolveE f a) fun a2 =>
      rBind (resolveE f b) fun b2 =>
        rBind (resolveO f ty) fun ty2 => rPure (.merge a2 b2 ty2)
  | .field e l => rBind (resolveE f e) fun e2 => rPure (.field e2 l)
  | .projection e ls => rBind (resolveE f e) fun e2 => rPure (.projection e2 ls)
  | .embed e =>
    (match f e with
     | .ok v => .ok (.embed v)
     | .error err => .error err,
     [e])

/-- Traversal of a list of subexpressions, left to right. -/
def resolveL {E E2 Err : Type} (f : E → Except Err E2) :
    List (Expr E) → Except Err (List (Expr E2)) × List E
  | [] => rPure []
  | x :: xs =>
    rBind (resolveE f x) fun y =>
      rBind (resolveL f xs) fun ys => rPure (y :: ys)

/-- Traversal of an optional subexpression. -/
def resolveO {E E2 Err : Type} (f : E → Except Err E2) :
    Option (Expr E) → Except Err (Option (Expr E2)) × List E
  | none => rPure none
  | some x => rBind (resolveE f x) fun y => rPure (some y)

/-- Traversal of a field map. -/
def resolveP {E E2 Err : Type} (f : E → Except Err E2) :
    List (Label × Expr E) → Except Err (List (Label × Expr E2)) × List E
  | [] => rPure []
  | (l, x) :: xs =>
    rBind (resolveE f x) fun y =>
      rBind (resolveP f xs) fun ys => rPure ((l, y) :: ys)

/-- Traversal of a union field map (values optional). -/
def resolvePO {E E2 Err : Type} (f : E → Except Err E2) :
    List (Label × Option (Expr E)) →
      Except Err (List (Label × Option (Expr E2))) × List E
  | [] => rPure []
  | (l, x) :: xs =>
    rBind (resolveO f x) fun y =>
      rBind (resolvePO f xs) fun ys => rPure ((l, y) :: ys)

/-- Traversal of interpolated-text chunks. -/
def resolveC {E E2 Err : Type} (f : E → Except Err E2) :
    List (Label ⊕ Expr E) → Except Err (List (Label ⊕ Expr E2)) × List E
  | [] => rPure []
  | Sum.inl s :: xs => rBind (resolveC f xs) fun ys => rPure (Sum.inl s :: ys)
  | Sum.inr x :: xs =>
    rBind (resolveE f x) fun y =>
      rBind (resolveC f xs) fun ys => rPure (Sum.inr y :: ys)

end

/-! ## `parse_any` (src/dhall_core/src/parser.rs, lines 180-214)

The concrete parse tree supplied by the grammar is a rule-tagged tree with
the matched source text at each node (`pest::iterators::Pair`).  The rule
table generated by `make_parser!` dispatches on the rule tag; each rule's
builder receives the node (for its captured text) and the already-built
values of its children, and may fail with a parse error.  We keep the rule
tag type, the built-value type, the error type and the dispatch table
abstract: `parse_any` is generic in all of them. -/

/-- A concrete parse tree node: rule tag, matched text, ordered children. -/
inductive PTree (Rule : Type) where
  | mk (rule : Rule) (text : String) (children : List (PTree Rule))

mutual

/-- Number of nodes of a parse tree. -/
def PTree.size {Rule : Type} : PTree Rule → Nat
  | .mk _ _ cs => 1 + PTree.sizeL cs

/-- Number of nodes of a forest. -/
def PTree.sizeL {Rule : Type} : List (PTree Rule) → Nat
  | [] => 0
  | t :: ts => PTree.size t + PTree.sizeL ts

end

theorem PTree.size_pos {Rule : Type} (t : PTree Rule) : 1 ≤ t.size := by
  cases t with
  | mk r tx cs => rw [PTree.size]; omega

/-- A work-list frame of `parse_any`'s explicit stack: either a tree not
yet expanded, or an already-expanded node remembering its child count. -/
inductive Frame (Rule : Type) where
  | unprocessed (t : PTree Rule)
  | processed (t : PTree Rule) (n : Nat)

/-- Termination measure contribution of one frame. -/
def Frame.weight {Rule : Type} : Frame Rule → Nat
  | .unprocessed t => 2 * t.size
  | .processed _ _ => 1

/-- Termination measure of the work list. -/
def stackWeight {Rule : Type} : List (Frame Rule) → Nat
  | [] => 0
  | f :: s => f.weight + stackWeight s

theorem stackWeight_append {Rule : Type} (a b : List (Frame Rule)) :
    stackWeight (a ++ b) = stackWeight a + stackWeight b := by
  induction a with
  | nil => simp [stackWeight]
  | cons f s ih => simp [stackWeight, ih]; omega

theorem stackWeight_reverse {Rule : Type} (a : List (Frame Rule)) :
    stackWeight a.reverse = stackWeight a := by
  induction a with
  | nil => rfl
  | cons f s ih =>
    simp [List.reverse_cons, stackWeight_append, stackWeight, ih]
    omega

theorem stackWeight_map_unprocessed {Rule : Type} (cs : List (PTree Rule)) :
    stackWeight (cs.map Frame.unprocessed) = 2 * PTree.sizeL cs := by
  induction cs with
  | nil => rfl
  | cons t ts ih =>
    simp [stackWeight, Frame.weight, PTree.sizeL, ih]
    omega

/-- The work-list/value-stack loop of `parse_any`.  Both stacks are lists
with the head as the top (Rust pushes/pops at a `Vec`'s end; here a `Vec`
segment `[x1, ..., xk]` with `xk` on top is the list `[xk, ..., x1]`, so
appending the child frames in order corresponds to prepending them
reversed).  Popping an `unprocessed` frame pushes a `processed` frame
recording the child count and then the children; popping a `processed`
frame pops that many built values (Rust's `split_off` + `reverse` hands
them to the builder in child order, which with head-as-top is `take n`),
applies the rule's builder and pushes the result, propagating a builder
error out of the whole loop (the `?`).  `none` models the two panic points:
`split_off` with fewer than `n` values available, and `pop().unwrap()` on
an empty final value stack (the latter is in `parse_any_result` below).
The final value stack is returned whole so that claims about its length
can be stated. -/
def runMachine {Rule Value Err : Type}
    (build : Rule → String → List Value → Except Err Value) :
    List (Frame Rule) → List Value → Option (Except Err (List Value))
  | [], vs => some (.ok vs)
  | .unprocessed (.mk r tx cs) :: s, vs =>
    runMachine build
      ((cs.map Frame.unprocessed).reverse
        ++ Frame.processed (.mk r tx cs) cs.length :: s) vs
  | .processed (.mk r tx _) n :: s, vs =>
    if n ≤ vs.length then
      match build r tx (vs.take n) with
      | .ok v => runMachine build s (v :: vs.drop n)
      | .error e => some (.error e)
    else none
termination_by fs _ => stackWeight fs
decreasing_by
  · simp only [stackWeight_append, stackWeight_reverse,
      stackWeight_map_unprocessed, stackWeight, Frame.weight, PTree.size]
    omega
  · simp only [stackWeight, Frame.weight]
    omega

/-- `parse_any`: run the machine from an unprocessed frame for the root
and an empty value stack, then pop the single result
(`values_stack.pop().unwrap()`). -/
def parse_any_result {Rule Value Err : Type}
    (build : Rule → String → List Value → Except Err Value)
    (t : PTree Rule) : Option (Except Err Value) :=
  match runMachine build [Frame.unprocessed t] [] with
  | none => none
  | some (.error e) => some (.error e)
  | some (.ok []) => none
  | some (.ok (v :: _)) => some (.ok v)

mutual

/-- Modelled from the spec: the naive recursive bottom-up evaluation the
claim compares `parse_any` against — build each child's value in order,
left to right, then apply the rule's builder to the node's text and the
children's values, propagating the first failure. -/
def parseRecSpec {Rule Value Err : Type}
    (build : Rule → String → List Value → Except Err Value) :
    PTree Rule → Except Err Value
  | .mk r tx cs =>
    match parseRecSpecL build cs with
    | .error e => .error e
    | .ok vs => build r tx vs

/-- Modelled from the spec: recursive evaluation of a forest, in order. -/
def parseRecSpecL {Rule Value Err : Type}
    (build : Rule → String → List Value → Except Err Value) :
    List (PTree Rule) → Except Err (List Value)
  | [] => .ok []
  | t :: ts =>
    match parseRecSpec build t with
    | .error e => .error e
    | .ok v =>
      match parseRecSpecL build ts with
      | .error e => .error e
      | .ok vs => .ok (v :: vs)

end

/-! ## Import descriptors (src/dhall_core/src/parser.rs, lines 355-409, and
src/dhall/src/imports.rs)

A `PathBuf` is carried as its list of components. `FilePrefix` is named
`FilePrefixKind` here. -/

/-- A filesystem path, as its list of components. -/
abbrev Path := List String

/-- `FilePrefix`: how a local import path is anchored. -/
inductive FilePrefixKind where
  | parent
  | here
  | home
  | absolute
deriving DecidableEq, Repr

/-- `ImportLocation`: in this scope only `Local(prefix, path)` exists
(remote/env/missing are commented out in the parser). -/
inductive ImportLocation where
  | localFile (pre : FilePrefixKind) (path : Path)
deriving DecidableEq, Repr

/-- `ImportMode`: only `Code` in this scope. -/
inductive ImportMode where
  | code
deriving DecidableEq, Repr

/-- `Import`: resolution mode, stubbed integrity hash, and location. -/
structure Import where
  mode : ImportMode
  hash : Option Unit
  location : ImportLocation
deriving DecidableEq, Repr

/-! ## The rule table for the precedence claim
(src/dhall_core/src/parser.rs, lines 481-486, 523-528, 571-581, 339-345)

The builders for `plus_expression`, `times_expression`,
`literal_expression_raw` and `natural_literal_raw`, translated from the
`make_parser!` table and instantiating the generic `parse_any` machinery.
A child-value shape not matched by a rule's `children!` patterns hits the
`match_pair!` catch-all, which panics (`Unexpected children while parsing
rule`) — modelled as the error `unexpectedChildren`; the intermediate
coercion `x.expression()` on a wrong variant (`unreachable!`) is modelled
the same way.  Neither is reachable on grammar-produced trees. -/

/-- Rust `char::is_whitespace`-trimming of both ends,
i.e. `str::trim` on the character list of the captured text. -/
def trimChars (s : List Char) : List Char :=
  ((s.dropWhile Char.isWhitespace).reverse.dropWhile Char.isWhitespace).reverse

/-- Accumulate decimal digits; any non-digit fails the parse. -/
def parseNatDigits : List Char → Nat → Option Nat
  | [], acc => some acc
  | c :: cs, acc =>
    if c.isDigit then parseNatDigits cs (acc * 10 + (c.toNat - 48)) else none

/-- `str::parse::<usize>` applied to `str::trim` of the captured text: an
optional leading `+`, then one or more decimal digits, within the `usize`
range. -/
def parseNatText (s : String) : Option Nat :=
  let cs := trimChars s.data
  let ds := match cs with
            | c :: rest => if c = '+' then rest else cs
            | [] => []
  match ds with
  | [] => none
  | _ =>
    match parseNatDigits ds 0 with
    | none => none
    | some n => if n ≤ USIZE_MAX then some n else none

/-- The rules instantiated for the precedence claim. -/
inductive PRule where
  | plus_expression
  | times_expression
  | literal_expression_raw
  | natural_literal_raw
deriving DecidableEq, Repr

/-- `ParsedValue`: one variant per rule group (`expression` for the
expression group, one for `natural_literal_raw`). -/
inductive PValue where
  | expression (e : Expr Import)
  | natural_literal_raw (n : Nat)

/-- Parse/dispatch errors of the instantiated table. -/
inductive PErr where
  | parseIntError
  | unexpectedChildren
deriving DecidableEq, Repr

/-- The `.expression()` coercion applied to each remaining child by the
`expression(rest..)` macro pattern (panics — here `unexpectedChildren` —
on a non-`expression` child). -/
def extractExpressions : List PValue → Except PErr (List (Expr Import))
  | [] => .ok []
  | .expression e :: xs => (extractExpressions xs).map (e :: ·)
  | _ :: _ => .error .unexpectedChildren

/-- The shared shape of the binary-operator builders:
`[expression(e)] => e` and
`[expression(first), expression(rest..)] => rest.fold(first, |acc, e|
bx(Expr::BinOp(op, acc, e)))`. -/
def buildOpChain (op : BinOp) : List PValue → Except PErr PValue
  | [.expression e] => .ok (.expression e)
  | .expression first :: rest =>
    match extractExpressions rest with
    | .error e => .error e
    | .ok es =>
      .ok (.expression (es.foldl (fun acc e => Expr.binOp op acc e) first))
  | _ => .error .unexpectedChildren

/-- The rule-dispatch table, one arm per instantiated rule.
`literal_expression_raw`'s omitted arms (double/text literals) concern
rules not instantiated here. -/
def ruleDispatch : PRule → String → List PValue → Except PErr PValue
  | .natural_literal_raw, s, _ =>
    -- raw_pair!: parses the trimmed captured text, children unused
    match parseNatText s with
    | some n => .ok (.natural_literal_raw n)
    | none => .error .parseIntError
  | .literal_expression_raw, _, [.natural_literal_raw n] =>
    .ok (.expression (.naturalLit n))
  | .literal_expression_raw, _, [.expression e] => .ok (.expression e)
  | .literal_expression_raw, _, _ => .error .unexpectedChildren
  | .plus_expression, _, vals => buildOpChain .naturalPlus vals
  | .times_expression, _, vals => buildOpChain .naturalTimes vals

/-- Modelled from the spec: the concrete parse tree the external grammar
produces for the source text `(1) + 3 * 5` (§4.1/§4.2: a `plus_expression`
whose operands are `times_expression` results, multiplication binding
tighter; the parenthesized `(1)` reaches `literal_expression_raw` via its
parenthesized-expression arm, itself containing a single-operand — hence
collapsing — operator chain). -/
def treeC4 : PTree PRule :=
  .mk .plus_expression "(1) + 3 * 5"
    [.mk .times_expression "(1)"
      [.mk .literal_expression_raw "(1)"
        [.mk .plus_expression "1"
          [.mk .times_expression "1"
            [.mk .literal_expression_raw "1"
              [.mk .natural_literal_raw "1" []]]]]],
     .mk .times_expression "3 * 5"
      [.mk .literal_expression_raw "3" [.mk .natural_literal_raw "3" []],
       .mk .literal_expression_raw "5" [.mk .natural_literal_raw "5" []]]]

/-! ## Record/union field collection
(src/dhall_core/src/parser.rs, lines 612-691)

The parser collects record and union fields into
`BTreeMap<Label, RcExpr>`: `entries.collect()` inserts the tail entries
left to right (a later duplicate key overwrites an earlier one), then
`map.insert(first_label, first_expr)` adds the first field (overwriting a
tail entry with the same label).  `BTreeMap` is modelled as a strictly
key-sorted association list with replace-on-equal insertion. -/

/-- `BTreeMap::insert`: ordered insertion, replacing an equal key. -/
def btreeInsert {α : Type} : List (Label × α) → Label → α → List (Label × α)
  | [], k, v => [(k, v)]
  | (k', v') :: rest, k, v =>
    if k < k' then (k, v) :: (k', v') :: rest
    else if k = k' then (k, v) :: rest
    else (k', v') :: btreeInsert rest k v

/-- `BTreeMap::from_iter` / `collect()`: insert each pair in order. -/
def btreeFromList {α : Type} (l : List (Label × α)) : List (Label × α) :=
  l.foldl (fun m kv => btreeInsert m kv.1 kv.2) []

/-- `non_empty_record_type`'s builder:
`[expression(expr), record_type_entry(entries..)] =>
(expr, entries.collect())`. -/
def non_empty_record_type_build (expr : Expr Import)
    (entries : List (Label × Expr Import)) :
    Expr Import × List (Label × Expr Import) :=
  (expr, btreeFromList entries)

/-- `non_empty_record_literal`'s builder (same shape). -/
def non_empty_record_literal_build (expr : Expr Import)
    (entries : List (Label × Expr Import)) :
    Expr Import × List (Label × Expr Import) :=
  (expr, btreeFromList entries)

/-- `non_empty_record_type_or_literal`'s record-type arm:
`map.insert(first_label, first_expr); bx(Expr::Record(map))`. -/
def record_type_or_literal_ty (first_label : Label)
    (rest : Expr Import × List (Label × Expr Import)) : Expr Import :=
  Expr.recordType (btreeInsert rest.2 first_label rest.1)

/-- `non_empty_record_type_or_literal`'s record-literal arm:
`map.insert(first_label, first_expr); bx(Expr::RecordLit(map))`. -/
def record_type_or_literal_lit (first_label : Label)
    (rest : Expr Import × List (Label × Expr Import)) : Expr Import :=
  Expr.recordLit (btreeInsert rest.2 first_label rest.1)

/-- `union_type_entries`'s builder:
`[union_type_entry(entries..)] => entries.collect()`. -/
def union_type_entries_build (entries : List (Label × Expr Import)) :
    List (Label × Expr Import) :=
  btreeFromList entries

/-- `non_empty_union_type_or_literal`'s first arm (the remaining fields
arrive as a `union_type_entries` map):
`[label_raw(l), expression(e), union_type_entries(entries)] =>
(Some((l, e)), entries)`, composed with `union_type_entries`'s builder. -/
def non_empty_union_build_entries (l : Label) (e : Expr Import)
    (entries : List (Label × Expr Import)) :
    Option (Label × Expr Import) × List (Label × Expr Import) :=
  (some (l, e), union_type_entries_build entries)

/-- `non_empty_union_type_or_literal`'s recursive arm:
`[label_raw(l), expression(e), non_empty_union_type_or_literal(rest)] =>
{ let (x, mut entries) = rest; entries.insert(l, e); (x, entries) }`. -/
def non_empty_union_build_cons (l : Label) (e : Expr Import)
    (rest : Option (Label × Expr Import) × List (Label × Expr Import)) :
    Option (Label × Expr Import) × List (Label × Expr Import) :=
  (rest.1, btreeInsert rest.2 l e)

/-- `non_empty_union_type_or_literal`'s base arm:
`[label_raw(l), expression(e)] => { let mut entries = BTreeMap::new();
entries.insert(l, e); (None, entries) }`. -/
def non_empty_union_build_single (l : Label) (e : Expr Import) :
    Option (Label × Expr Import) × List (Label × Expr Import) :=
  (none, btreeInsert [] l e)

/-- The whole recursive chain of `non_empty_union_type_or_literal`: the
rule recurses innermost-first, inserting each leading `(label, expr)` pair
into the map on the way out, so the source-ordered pairs are folded from
the right over the base arm's result. -/
def non_empty_union_fold (pairs : List (Label × Expr Import))
    (base : Option (Label × Expr Import) × List (Label × Expr Import)) :
    Option (Label × Expr Import) × List (Label × Expr Import) :=
  pairs.foldr (fun le acc => non_empty_union_build_cons le.1 le.2 acc) base

/-- `union_type_or_literal`'s union-type arm:
`[non_empty_union_type_or_literal((None, entries))] =>
bx(Expr::Union(entries))`.  The embedded (dhall_syntax) AST's `UnionType`
holds optional values, so each value is wrapped in `some`; the `UnionLit`
arm has no counterpart there and carries the same `entries` map. -/
def union_type_or_literal_build (entries : List (Label × Expr Import)) :
    Expr Import :=
  Expr.unionType (entries.map fun p => (p.1, some p.2))

/-! ## Import resolution (src/dhall/src/imports.rs)

`load_dhall_file` reads and parses a file, then — when resolving — maps
every embed leaf through a closure that calls `resolve_import` and
`.unwrap()`s its result (a panic on any failure), splicing the resolved
tree in (`map_embed` + `squash_embed`).  `resolve_import` combines
the import's parent-relative path with the root directory
(`cwd.parent().unwrap().join(path)`) and recursively calls
`load_dhall_file`; non-`Parent` prefixes hit `unimplemented!`.

The filesystem and the parser are the external collaborators: they enter
as function parameters (`fs`, a path to file-contents map, and `parse`).
Rust panics are the explicit `LoadResult.panic` outcome.  The Rust code
has no termination guard (the spec flags missing cycle detection), so the
embedding is fuel-indexed: `load_dhall_file (fuel+1)` hands `fuel` to the
per-leaf resolution, and exhausted fuel is the distinguished
`LoadResult.fuelOut` outcome (inside the resolution closure, a nested
`fuelOut` — like any nested non-success — is unwrapped and becomes
`panic`).  `map_embed` composed with `squash_embed` (the latter's source
is outside the given scope) is, modelled from the spec's splice step, the
traversal `substE` replacing each embed leaf by a whole resolved tree. -/

/-- `std::io::Error`, by its display text. -/
structure IOErr where
  msg : String
deriving DecidableEq, Repr

/-- `parser::ParseError`, by its display text. -/
structure ParseErr where
  msg : String
deriving DecidableEq, Repr

/-- `DhallError`: a parse error or an I/O error, carrying the cause. -/
inductive DhallError where
  | parseError (e : ParseErr)
  | ioError (e : IOErr)
deriving DecidableEq, Repr

/-- `ImportRoot`: the directory against which relative imports resolve. -/
inductive ImportRoot where
  | localDir (dir : Path)
deriving DecidableEq, Repr

/-- `Path::parent`: drop the last component; `none` on an empty path. -/
def parentDir : Path → Option Path
  | [] => none
  | p => some p.dropLast

/-- Outcome of loading a file: success, a propagated `DhallError`, a Rust
panic, or exhausted fuel (an artifact of the fuel-indexed embedding,
standing for the unguarded recursion running forever). -/
inductive LoadResult where
  | ok (e : Expr Empty)
  | err (d : DhallError)
  | panic
  | fuelOut

mutual

/-- `map_embed` composed with `squash_embed`: replace every embed leaf by
the tree `g` produces for it, leaving every other node unchanged; `none`
(the callback's panic) propagates. -/
def substE {E E2 : Type} (g : E → Option (Expr E2)) :
    Expr E → Option (Expr E2)
  | .const c => some (.const c)
  | .var v => some (.var v)
  | .lam l ty body => do
    let t ← substE g ty
    let b ← substE g body
    some (.lam l t b)
  | .pi l ty body => do
    let t ← substE g ty
    let b ← substE g body
    some (.pi l t b)
  | .app fn arg => do
    let a ← substE g fn
    let b ← substE g arg
    some (.app a b)
  | .letIn l ty val body => do
    let t ← substO g ty
    let v ← substE g val
    let b ← substE g body
    some (.letIn l t v b)
  | .annot a b => do
    let a2 ← substE g a
    let b2 ← substE g b
    some (.annot a2 b2)
  | .assert a => do
    let a2 ← substE g a
    some (.assert a2)
  | .builtin b => some (.builtin b)
  | .binOp op l r => do
    let l2 ← substE g l
    let r2 ← substE g r
    some (.binOp op l2 r2)
  | .boolLit b => some (.boolLit b)
  | .boolIf c t e => do
    let c2 ← substE g c
    let t2 ← substE g t
    let e2 ← substE g e
    some (.boolIf c2 t2 e2)
  | .naturalLit n => some (.naturalLit n)
  | .integerLit n => some (.integerLit n)
  | .doubleLit d => some (.doubleLit d)
  | .textLit chunks => do
    let cs ← substC g chunks
    some (.textLit cs)
  | .emptyListLit ty => do
    let t ← substE g ty
    some (.emptyListLit t)
  | .neListLit xs => do
    let ys ← substL g xs
    some (.neListLit ys)
  | .someLit x => do
    let y ← substE g x
    some (.someLit y)
  | .recordType m => do
    let m2 ← substP g m
    some (.recordType m2)
  | .recordLit m => do
    let m2 ← substP g m
    some (.recordLit m2)
  | .unionType m => do
    let m2 ← substPO g m
    some (.unionType m2)
  | .merge a b ty => do
    let a2 ← substE g a
    let b2 ← substE g b
    let t2 ← substO g ty
    some (.merge a2 b2 t2)
  | .field e l => do
    let e2 ← substE g e
    some (.field e2 l)
  | .projection e ls => do
    let e2 ← substE g e
    some (.projection e2 ls)
  | .embed e => g e

/-- Embed substitution over a list of subexpressions. -/
def substL {E E2 : Type} (g : E → Option (Expr E2)) :
    List (Expr E) → Option (List (Expr E2))
  | [] => some []
  | x :: xs => do
    let y ← substE g x
    let ys ← substL g xs
    some (y :: ys)

/-- Embed substitution over an optional subexpression. -/
def substO {E E2 : Type} (g : E → Option (Expr E2)) :
    Option (Expr E) → Option (Option (Expr E2))
  | none => some none
  | some x => do
    let y ← substE g x
    some (some y)

/-- Embed substitution over a field map. -/
def substP {E E2 : Type} (g : E → Option (Expr E2)) :
    List (Label × Expr E) → Option (List (Label × Expr E2))
  | [] => some []
  | (l, x) :: xs => do
    let y ← substE g x
    let ys ← substP g xs
    some ((l, y) :: ys)

/-- Embed substitution over a union field map. -/
def substPO {E E2 : Type} (g : E → Option (Expr E2)) :
    List (Label × Option (Expr E)) → Option (List (Label × Option (Expr E2)))
  | [] => some []
  | (l, x) :: xs => do
    let y ← substO g x
    let ys ← substPO g xs
    some ((l, y) :: ys)

/-- Embed substitution over interpolated-text chunks. -/
def substC {E E2 : Type} (g : E → Option (Expr E2)) :
    List (Label ⊕ Expr E) → Option (List (Label ⊕ Expr E2))
  | [] => some []
  | Sum.inl s :: xs => do
    let ys ← substC g xs
    some (Sum.inl s :: ys)
  | Sum.inr x :: xs => do
    let y ← substE g x
    let ys ← substC g xs
    some (Sum.inr y :: ys)

end

mutual

/-- `load_dhall_file(f, resolve_imports)`: read the file (an I/O failure
propagates as `DhallError::IOError` via `?`), parse it (a parse failure
propagates as `DhallError::ParseError` via `?`), then either resolve
every import leaf through `resolve_import(..).unwrap()` — failure there is a
panic — or, with resolution off, `panic_imports` (panic on any remaining
leaf). -/
def load_dhall_file (fs : Path → Except IOErr String)
    (parse : String → Except ParseErr (Expr Import)) :
    Nat → Path → Bool → LoadResult
  | 0, _, _ => .fuelOut
  | fuel + 1, f, resolveImports =>
    match fs f with
    | .error e => .err (.ioError e)
    | .ok buffer =>
      match parse buffer with
      | .error e => .err (.parseError e)
      | .ok expr =>
        if resolveImports then
          match parentDir f with
          | none => .panic
          | some dir =>
            match substE (fun imp =>
                match resolve_import fs parse fuel imp
                    (ImportRoot.localDir dir) with
                | .ok e2 => some e2
                | _ => none) expr with
            | none => .panic
            | some e2 => .ok e2
        else
          match substE (fun _ => (none : Option (Expr Empty))) expr with
          | none => .panic
          | some e2 => .ok e2

/-- `resolve_import`: combine the parent-relative path with the root
directory (`cwd.parent().unwrap().join(path)`; the `unwrap` panics when
`cwd` has no parent) and recursively load it; any non-`Parent` prefix is
`unimplemented!`. -/
def resolve_import (fs : Path → Except IOErr String)
    (parse : String → Except ParseErr (Expr Import)) :
    Nat → Import → ImportRoot → LoadResult
  | fuel, imp, .localDir cwd =>
    match imp.location with
    | .localFile .parent path =>
      match parentDir cwd with
      | none => .panic
      | some p => load_dhall_file fs parse fuel (p ++ path) true
    | .localFile _ _ => .panic

end

/-- The filesystem of the C6 counterexample: directory `d` holds
`a.dhall`, whose single import target `../b.dhall` does not exist. -/
def fsC6 : Path → Except IOErr String := fun p =>
  if p = ["d", "a.dhall"] then .ok "import-a" else .error ⟨"missing"⟩

/-- The parser of the C6 counterexample: `a.dhall`'s text parses to the
single parent-relative import `../b.dhall`. -/
def parseC6 : String → Except ParseErr (Expr Import) := fun s =>
  if s = "import-a"
  then .ok (.embed ⟨.code, none, .localFile .parent ["b.dhall"]⟩)
  else .error ⟨"syntax"⟩

/-- A concrete builder for witnesses: the built value of a node is its
rule tag plus the sum of its children's values. -/
def sumBuild (r : Nat) (_ : String) (vs : List Nat) : Except Unit Nat :=
  .ok (r + vs.sum)

/-- A concrete three-node parse tree for witnesses. -/
def treeEx : PTree Nat :=
  .mk 1 "" [.mk 2 "" [], .mk 3 "" []]

/-! ### Equivalence of `parse_any`'s machine with recursive evaluation -/

theorem parseRecSpecL_length {Rule Value Err : Type}
    (build : Rule → String → List Value → Except Err Value)
    (ts : List (PTree Rule)) (ws : List Value)
    (h : parseRecSpecL build ts = .ok ws) : ws.length = ts.length := by
  induction ts generalizing ws with
  | nil =>
    rw [parseRecSpecL] at h
    cases h
    rfl
  | cons t ts ih =>
    rw [parseRecSpecL] at h
    cases hT : parseRecSpec build t with
    | error e => rw [hT] at h; cases h
    | ok v =>
      rw [hT] at h
      cases hL : parseRecSpecL build ts with
      | error e => rw [hL] at h; cases h
      | ok vs =>
        rw [hL] at h
        cases h
        simp [ih vs hL]

/-- Machine/recursion correspondence on successful evaluations: an
unprocessed frame for a tree whose recursive evaluation succeeds is
consumed by pushing the tree's value; a block of unprocessed frames for a
forest (reversed, as `parse_any` pushes them) is consumed by pushing the
forest's values in order. -/
theorem runMachine_ok {Rule Value Err : Type}
    (build : Rule → String → List Value → Except Err Value) :
    ∀ N : Nat,
      (∀ t : PTree Rule, t.size ≤ N → ∀ v s vs,
        parseRecSpec build t = .ok v →
        runMachine build (Frame.unprocessed t :: s) vs
          = runMachine build s (v :: vs))
    ∧ (∀ ts : List (PTree Rule), PTree.sizeL ts ≤ N → ∀ ws s vs,
        parseRecSpecL build ts = .ok ws →
        runMachine build ((ts.map Frame.unprocessed).reverse ++ s) vs
          = runMachine build s (ws ++ vs)) := by
  intro N
  induction N using Nat.strong_induction_on with
  | _ N IH =>
    have hnode : ∀ t : PTree Rule, t.size ≤ N → ∀ v s vs,
        parseRecSpec build t = .ok v →
        runMachine build (Frame.unprocessed t :: s) vs
          = runMachine build s (v :: vs) := by
      intro t ht v s vs hrec
      cases t with
      | mk r tx cs =>
        rw [PTree.size] at ht
        rw [parseRecSpec] at hrec
        cases hL : parseRecSpecL build cs with
        | error e => rw [hL] at hrec; cases hrec
        | ok ws =>
          rw [hL] at hrec
          have hbuild : build r tx ws = Except.ok v := hrec
          have hlen : ws.length = cs.length := parseRecSpecL_length build cs ws hL
          rw [runMachine]
          have hcs : PTree.sizeL cs ≤ N - 1 := by omega
          have hN : N - 1 < N := by omega
          rw [(IH (N - 1) hN).2 cs hcs ws
            (Frame.processed (.mk r tx cs) cs.length :: s) vs hL]
          rw [runMachine]
          have hle : cs.length ≤ (ws ++ vs).length := by
            simp [hlen]
          rw [if_pos hle]
          have htake : (ws ++ vs).take cs.length = ws := by
            rw [← hlen]
            exact List.take_left ws vs
          have hdrop : (ws ++ vs).drop cs.length = vs := by
            rw [← hlen]
            exact List.drop_left ws vs
          rw [htake, hdrop, hbuild]
    refine ⟨hnode, ?_⟩
    intro ts hts ws s vs hrec
    cases ts with
    | nil =>
      rw [parseRecSpecL] at hrec
      cases hrec
      simp
    | cons t ts' =>
      rw [PTree.sizeL] at hts
      have ht1 : 1 ≤ t.size := PTree.size_pos t
      rw [parseRecSpecL] at hrec
      cases hT : parseRecSpec build t with
      | error e => rw [hT] at hrec; cases hrec
      | ok v =>
        rw [hT] at hrec
        cases hL : parseRecSpecL build ts' with
        | error e => rw [hL] at hrec; cases hrec
        | ok ws' =>
          rw [hL] at hrec
          cases hrec
          have hstep :
              ((t :: ts').map Frame.unprocessed).reverse ++ s
                = (ts'.map Frame.unprocessed).reverse
                    ++ (Frame.unprocessed t :: s) := by
            simp
          rw [hstep]
          have hts' : PTree.sizeL ts' ≤ N - 1 := by omega
          have hN : N - 1 < N := by omega
          rw [(IH (N - 1) hN).2 ts' hts' ws' (Frame.unprocessed t :: s) vs hL]
          rw [hnode t (by omega) v s (ws' ++ vs) hT]
          simp

/-- Machine/recursion correspondence on failures: when the recursive
evaluation of a tree (or forest) fails, the machine run also stops with
some builder error. -/
theorem runMachine_err {Rule Value Err : Type}
    (build : Rule → String → List Value → Except Err Value) :
    ∀ N : Nat,
      (∀ t : PTree Rule, t.size ≤ N → ∀ e s vs,
        parseRecSpec build t = .error e →
        ∃ e', runMachine build (Frame.unprocessed t :: s) vs
          = some (.error e'))
    ∧ (∀ ts : List (PTree Rule), PTree.sizeL ts ≤ N → ∀ e s vs,
        parseRecSpecL build ts = .error e →
        ∃ e', runMachine build ((ts.map Frame.unprocessed).reverse ++ s) vs
          = some (.error e')) := by
  intro N
  induction N using Nat.strong_induction_on with
  | _ N IH =>
    have hnode : ∀ t : PTree Rule, t.size ≤ N → ∀ e s vs,
        parseRecSpec build t = .error e →
        ∃ e', runMachine build (Frame.unprocessed t :: s) vs
          = some (.error e') := by
      intro t ht e s vs hrec
      cases t with
      | mk r tx cs =>
        rw [PTree.size] at ht
        rw [parseRecSpec] at hrec
        rw [runMachine]
        cases hL : parseRecSpecL build cs with
        | error e0 =>
          have hcs : PTree.sizeL cs ≤ N - 1 := by omega
          have hN : N - 1 < N := by omega
          exact (IH (N - 1) hN).2 cs hcs e0
            (Frame.processed (.mk r tx cs) cs.length :: s) vs hL
        | ok ws =>
          rw [hL] at hrec
          have hbuild : build r tx ws = Except.error e := hrec
          have hlen : ws.length = cs.length := parseRecSpecL_length build cs ws hL
          rw [(runMachine_ok build (PTree.sizeL cs)).2 cs (Nat.le_refl _) ws
            (Frame.processed (.mk r tx cs) cs.length :: s) vs hL]
          rw [runMachine]
          have hle : cs.length ≤ (ws ++ vs).length := by
            simp [hlen]
          rw [if_pos hle]
          have htake : (ws ++ vs).take cs.length = ws := by
            rw [← hlen]
            exact List.take_left ws vs
          rw [htake, hbuild]
          exact ⟨e, rfl⟩
    refine ⟨hnode, ?_⟩
    intro ts hts e s vs hrec
    cases ts with
    | nil =>
      rw [parseRecSpecL] at hrec
      cases hrec
    | cons t ts' =>
      rw [PTree.sizeL] at hts
      have ht1 : 1 ≤ t.size := PTree.size_pos t
      rw [parseRecSpecL] at hrec
      have hstep :
          ((t :: ts').map Frame.unprocessed).reverse ++ s
            = (ts'.map Frame.unprocessed).reverse
                ++ (Frame.unprocessed t :: s) := by
        simp
      rw [hstep]
      cases hL : parseRecSpecL build ts' with
      | error e0 =>
        have hts' : PTree.sizeL ts' ≤ N - 1 := by omega
        have hN : N - 1 < N := by omega
        exact (IH (N - 1) hN).2 ts' hts' e0 (Frame.unprocessed t :: s) vs hL
      | ok ws' =>
        cases hT : parseRecSpec build t with
        | error e1 =>
          rw [(runMachine_ok build (PTree.sizeL ts')).2 ts' (Nat.le_refl _) ws'
            (Frame.unprocessed t :: s) vs hL]
          exact hnode t (by omega) e1 s (ws' ++ vs) hT
        | ok v =>
          rw [hT, hL] at hrec
          cases hrec

/-- A successful recursive evaluation is returned as-is by `parse_any`. -/
theorem parse_any_result_ok_of_rec {Rule Value Err : Type}
    (build : Rule → String → List Value → Except Err Value)
    (t : PTree Rule) (v : Value) (h : parseRecSpec build t = .ok v) :
    parse_any_result build t = some (.ok v) := by
  have hm : runMachine build [Frame.unprocessed t] [] = some (.ok [v]) := by
    rw [(runMachine_ok build t.size).1 t (Nat.le_refl _) v [] [] h]
    rw [runMachine]
  rw [parse_any_result, hm]

/-! ### Facts about `BTreeMap` field collection -/

theorem btreeInsert_mem {α : Type} (m : List (Label × α)) (k : Label)
    (v : α) (p : Label × α) (hp : p ∈ btreeInsert m k v) :
    p.1 = k ∨ p ∈ m := by
  induction m with
  | nil =>
    rw [btreeInsert] at hp
    simp at hp
    left
    rw [hp]
  | cons q rest ih =>
    obtain ⟨k', v'⟩ := q
    rw [btreeInsert] at hp
    by_cases h1 : k < k'
    · rw [if_pos h1] at hp
      rcases List.mem_cons.mp hp with h | h
      · left; rw [h]
      · right; exact h
    · rw [if_neg h1] at hp
      by_cases h2 : k = k'
      · rw [if_pos h2] at hp
        rcases List.mem_cons.mp hp with h | h
        · left; rw [h]
        · right; exact List.mem_cons_of_mem _ h
      · rw [if_neg h2] at hp
        rcases List.mem_cons.mp hp with h | h
        · right; rw [h]; exact List.mem_cons_self _ _
        · rcases ih h with h' | h'
          · left; exact h'
          · right; exact List.mem_cons_of_mem _ h'

theorem btreeInsert_sorted {α : Type} (m : List (Label × α)) (k : Label)
    (v : α) (hm : (m.map Prod.fst).Pairwise (· < ·)) :
    ((btreeInsert m k v).map Prod.fst).Pairwise (· < ·) := by
  induction m with
  | nil => simp [btreeInsert]
  | cons p rest ih =>
    obtain ⟨k', v'⟩ := p
    simp only [List.map_cons, List.pairwise_cons] at hm
    rw [btreeInsert]
    by_cases h1 : k < k'
    · rw [if_pos h1]
      simp only [List.map_cons, List.pairwise_cons]
      refine ⟨?_, hm.1, hm.2⟩
      intro x hx
      simp at hx
      rcases hx with h | h
      · rw [h]; exact h1
      · exact lt_trans h1 (hm.1 x (by simpa using h))
    · rw [if_neg h1]
      by_cases h2 : k = k'
      · rw [if_pos h2]
        simp only [List.map_cons, List.pairwise_cons]
        refine ⟨?_, hm.2⟩
        intro x hx
        rw [h2]
        exact hm.1 x hx
      · rw [if_neg h2]
        simp only [List.map_cons, List.pairwise_cons]
        refine ⟨?_, ih hm.2⟩
        intro x hx
        obtain ⟨p, hp, hpx⟩ := List.mem_map.mp hx
        rcases btreeInsert_mem rest k v p hp with h | h
        · rw [← hpx, h]
          exact lt_of_le_of_ne (le_of_not_lt h1) (fun hk => h2 hk.symm)
        · rw [← hpx]
          exact hm.1 p.1 (List.mem_map_of_mem Prod.fst h)

theorem btreeFoldl_sorted {α : Type} (l : List (Label × α))
    (acc : List (Label × α)) (h : (acc.map Prod.fst).Pairwise (· < ·)) :
    ((l.foldl (fun m kv => btreeInsert m kv.1 kv.2) acc).map
        Prod.fst).Pairwise (· < ·) := by
  induction l generalizing acc with
  | nil => simpa using h
  | cons kv rest ih =>
    simp only [List.foldl_cons]
    exact ih _ (btreeInsert_sorted _ _ _ h)

theorem btreeFromList_sorted {α : Type} (l : List (Label × α)) :
    ((btreeFromList l).map Prod.fst).Pairwise (· < ·) :=
  btreeFoldl_sorted l [] (by simp)

theorem non_empty_union_fold_sorted (pairs : List (Label × Expr Import))
    (base : Option (Label × Expr Import) × List (Label × Expr Import))
    (h : (base.2.map Prod.fst).Pairwise (· < ·)) :
    (((non_empty_union_fold pairs base).2.map Prod.fst).Pairwise (· < ·)) := by
  induction pairs with
  | nil => simpa [non_empty_union_fold] using h
  | cons le rest ih =>
    simp only [non_empty_union_fold, List.foldr_cons,
      non_empty_union_build_cons]
    exact btreeInsert_sorted _ _ _ (by simpa [non_empty_union_fold] using ih)

/-! ### Facts about `traverse_resolve` -/

/-- Unfolding of the ImportAlt special case: both branches are resolved,
their logs concatenate, and `Result::or` combines the results. -/
theorem resolveE_importAlt {E E2 Err : Type} (f : E → Except Err E2)
    (l r : Expr E) :
    resolveE f (.binOp .importAlt l r) =
      (exceptOr (resolveE f l).1 (resolveE f r).1,
       (resolveE f l).2 ++ (resolveE f r).2) := by
  rw [resolveE]

/-- A concrete embed callback for witnesses: fails (with error 7) on the
embed value `0`, succeeds on anything else. -/
def failOnZero (n : Nat) : Except Nat Nat :=
  if n == 0 then .error 7 else .ok n

/-- A concrete embed callback that always succeeds. -/
def okNat (n : Nat) : Except Unit Nat := .ok n

/-! ### Arithmetic facts about `add_ui` -/

theorem checked_neg_eq (i : Int) (h : i ≠ ISIZE_MIN) : checked_neg i = some (-i) := by
  simp [checked_neg, h]

theorem add_ui_neg (u : Nat) (i : Int) (hi : i < 0) (hmin : i ≠ ISIZE_MIN) :
    add_ui u i = if (-i).toNat ≤ u then some (u - (-i).toNat) else none := by
  simp only [add_ui, if_pos hi, checked_neg_eq i hmin, Option.bind_eq_bind,
    Option.some_bind, checked_sub]

theorem add_ui_nonneg (u : Nat) (i : Int) (hi : ¬ i < 0) :
    add_ui u i = if u + i.toNat ≤ USIZE_MAX then some (u + i.toNat) else none := by
  simp only [add_ui, if_neg hi, checked_add]

/-- When `add_ui` succeeds, the result is the integer sum `u + i`. -/
theorem add_ui_some_int (u : Nat) (i : Int) (k : Nat)
    (h : add_ui u i = some k) : (k : Int) = (u : Int) + i := by
  by_cases hi : i < 0
  · by_cases hmin : i = ISIZE_MIN
    · subst hmin
      simp [add_ui, checked_neg, hi] at h
    · rw [add_ui_neg u i hi hmin] at h
      by_cases hle : (-i).toNat ≤ u
      · rw [if_pos hle] at h
        cases h
        have hnn : (0 : Int) ≤ -i := by omega
        have : ((-i).toNat : Int) = -i := Int.toNat_of_nonneg hnn
        omega
      · rw [if_neg hle] at h
        cases h
  · rw [add_ui_nonneg u i hi] at h
    by_cases hle : u + i.toNat ≤ USIZE_MAX
    · rw [if_pos hle] at h
      cases h
      have : (i.toNat : Int) = i := Int.toNat_of_nonneg (by omega)
      omega
    · rw [if_neg hle] at h
      cases h

/-- Characterization of `add_ui` failure: underflow below zero, overflow
past `usize::MAX`, or the un-negatable `isize::MIN` (assuming the input
index is a valid `usize`). -/
theorem add_ui_none_iff (u : Nat) (i : Int) (hu : u ≤ USIZE_MAX) :
    add_ui u i = none ↔
      i = ISIZE_MIN ∨ (u : Int) + i < 0 ∨ (u : Int) + i > (USIZE_MAX : Int) := by
  by_cases hi : i < 0
  · by_cases hmin : i = ISIZE_MIN
    · subst hmin
      simp [add_ui, checked_neg, hi]
    · rw [add_ui_neg u i hi hmin]
      have hnn : (0 : Int) ≤ -i := by omega
      have htn : ((-i).toNat : Int) = -i := Int.toNat_of_nonneg hnn
      constructor
      · intro h
        by_cases hle : (-i).toNat ≤ u
        · rw [if_pos hle] at h; cases h
        · right; left; omega
      · intro h
        rcases h with h | h | h
        · exact absurd h hmin
        · have : ¬ (-i).toNat ≤ u := by omega
          rw [if_neg this]
        · omega
  · rw [add_ui_nonneg u i hi]
    have htn : (i.toNat : Int) = i := Int.toNat_of_nonneg (by omega)
    constructor
    · intro h
      by_cases hle : u + i.toNat ≤ USIZE_MAX
      · rw [if_pos hle] at h; cases h
      · right; right; omega
    · intro h
      rcases h with h | h | h
      · exfalso
        have : i < 0 := by rw [h, ISIZE_MIN]; omega
        exact hi this
      · omega
      · have : ¬ u + i.toNat ≤ USIZE_MAX := by omega
        rw [if_neg this]

/-! ## Claim theorems -/

/-- C1: resolving `BinOp(ImportAlt, l, r)` with `traverse_resolve` returns
the result of resolving `l` when that succeeds; when resolving `l` fails it
returns the result of resolving `r`; and when resolving `r` also fails the
returned error is the right branch's, not the left's. -/
theorem importAlt_resolution_result {E E2 Err : Type} (f : E → Except Err E2)
    (l r : Expr E) :
    (∀ v, (resolveE f l).1 = .ok v →
      (resolveE f (.binOp .importAlt l r)).1 = .ok v)
  ∧ (∀ el, (resolveE f l).1 = .error el →
      (resolveE f (.binOp .importAlt l r)).1 = (resolveE f r).1)
  ∧ (∀ el er, (resolveE f l).1 = .error el → (resolveE f r).1 = .error er →
      (resolveE f (.binOp .importAlt l r)).1 = .error er) := by
  refine ⟨?_, ?_, ?_⟩
  · intro v hv
    rw [resolveE_importAlt]
    simp [exceptOr, hv]
  · intro el hel
    rw [resolveE_importAlt]
    simp [exceptOr, hel]
  · intro el er hel her
    rw [resolveE_importAlt]
    simp [exceptOr, hel, her]

/-- Witness for C1 at a concrete input: both branches are failing embeds,
and the surfaced error is the right branch's. -/
theorem importAlt_resolution_result_witness :
    (resolveE failOnZero
      (Expr.binOp .importAlt (Expr.embed 0) (Expr.embed 0))).1 =
      Except.error 7 :=
  (importAlt_resolution_result failOnZero (Expr.embed 0) (Expr.embed 0)).2.2
    7 7 (by simp [resolveE, failOnZero]) (by simp [resolveE, failOnZero])

/-- C2 (code bug): on `BinOp(ImportAlt, NaturalLit 1, Embed 0)` the left
branch resolves successfully, yet the embed callback is invoked on the
embed leaf occurring only in the right branch — `Result::or` evaluates its
argument eagerly, so the right branch is always resolved. -/
theorem importAlt_right_branch_eagerly_resolved :
    (resolveE okNat
        (Expr.binOp .importAlt (Expr.naturalLit 1) (Expr.embed 0))).1 =
      Except.ok (Expr.naturalLit 1)
  ∧ (resolveE okNat
        (Expr.binOp .importAlt (Expr.naturalLit 1) (Expr.embed 0))).2 = [0] := by
  constructor
  · rw [resolveE_importAlt]
    simp [resolveE, rPure, okNat, exceptOr]
  · rw [resolveE_importAlt]
    simp [resolveE, rPure, okNat]

/-- C3: `parse_any` — the explicit work-list/value-stack machine
(`runMachine` / `parse_any_result`, translated frame-for-frame from the
source) — terminates (it is a total function, and never hits a panic
point: the result is always `some`), ends with exactly one value on the
value stack whenever recursive evaluation succeeds, and returns exactly
the value obtained by naive recursive bottom-up application of each rule's
builder to its children's results in order. -/
theorem parse_any_refines_recursion {Rule Value Err : Type}
    (build : Rule → String → List Value → Except Err Value)
    (t : PTree Rule) :
    (∀ v, parseRecSpec build t = .ok v →
      runMachine build [Frame.unprocessed t] [] = some (.ok [v]))
  ∧ (∀ v, parse_any_result build t = some (.ok v)
      ↔ parseRecSpec build t = .ok v)
  ∧ (parse_any_result build t).isSome := by
  have hok : ∀ v, parseRecSpec build t = .ok v →
      runMachine build [Frame.unprocessed t] [] = some (.ok [v]) := by
    intro v hv
    rw [(runMachine_ok build t.size).1 t (Nat.le_refl _) v [] [] hv]
    rw [runMachine]
  refine ⟨hok, ?_, ?_⟩
  · intro v
    constructor
    · intro h
      cases hrec : parseRecSpec build t with
      | ok v' =>
        rw [parse_any_result, hok v' hrec] at h
        cases h
        rfl
      | error e =>
        obtain ⟨e', he'⟩ :=
          (runMachine_err build t.size).1 t (Nat.le_refl _) e [] [] hrec
        rw [parse_any_result, he'] at h
        cases h
    · intro hrec
      rw [parse_any_result, hok v hrec]
  · cases hrec : parseRecSpec build t with
    | ok v =>
      rw [parse_any_result, hok v hrec]
      rfl
    | error e =>
      obtain ⟨e', he'⟩ :=
        (runMachine_err build t.size).1 t (Nat.le_refl _) e [] [] hrec
      rw [parse_any_result, he']
      rfl

/-- Witness for C3 at a concrete builder and tree: recursive evaluation of
`treeEx` under `sumBuild` gives `6`, and the machine ends with exactly
`[6]` on the value stack. -/
theorem parse_any_refines_recursion_witness :
    parseRecSpec sumBuild treeEx = .ok 6
  ∧ runMachine sumBuild [Frame.unprocessed treeEx] [] = some (.ok [6]) := by
  have h : parseRecSpec sumBuild treeEx = .ok 6 := by
    simp [treeEx, parseRecSpec, parseRecSpecL, sumBuild]
  exact ⟨h, (parse_any_refines_recursion sumBuild treeEx).1 6 h⟩

/-- C4: parsing the text `(1) + 3 * 5` yields exactly
`BinOp(NaturalPlus, NaturalLit 1, BinOp(NaturalTimes, NaturalLit 3,
NaturalLit 5))`: multiplication binds tighter than addition, each operator
rule left-folds its operands into a left-associated chain, and a
single-operand rule instance collapses to its operand with no binary node
(exercised by the `(1)` subtree). -/
theorem precedence_left_fold_c4 :
    parseRecSpec ruleDispatch treeC4
      = .ok (.expression (.binOp .naturalPlus (.naturalLit 1)
          (.binOp .naturalTimes (.naturalLit 3) (.naturalLit 5))))
  ∧ parse_any_result ruleDispatch treeC4
      = some (.ok (.expression (.binOp .naturalPlus (.naturalLit 1)
          (.binOp .naturalTimes (.naturalLit 3) (.naturalLit 5))))) := by
  have h1 : parseNatText "1" = some 1 := by decide
  have h3 : parseNatText "3" = some 3 := by decide
  have h5 : parseNatText "5" = some 5 := by decide
  have h : parseRecSpec ruleDispatch treeC4
      = .ok (.expression (.binOp .naturalPlus (.naturalLit 1)
          (.binOp .naturalTimes (.naturalLit 3) (.naturalLit 5)))) := by
    simp [treeC4, parseRecSpec, parseRecSpecL, ruleDispatch, buildOpChain,
      extractExpressions, Except.map, h1, h3, h5]
  exact ⟨h, parse_any_result_ok_of_rec ruleDispatch treeC4 _ h⟩

/-- C5 counterexample: building the record literal written `[b = 1, a = 2]`
(first field label `b`, remaining entry `a`) yields the label-sorted map
`[(a, 2), (b, 1)]`, not the source-ordered `[(b, 1), (a, 2)]`; and building
the duplicate-label literal `[a = 1, a = 2]` yields the single-entry map
`[(a, 1)]` — the duplicate is overwritten, not retained. -/
theorem record_fields_counterexample :
    record_type_or_literal_lit "b"
        (non_empty_record_literal_build (.naturalLit 1) [("a", .naturalLit 2)])
      = Expr.recordLit [("a", .naturalLit 2), ("b", .naturalLit 1)]
  ∧ record_type_or_literal_lit "b"
        (non_empty_record_literal_build (.naturalLit 1) [("a", .naturalLit 2)])
      ≠ Expr.recordLit [("b", .naturalLit 1), ("a", .naturalLit 2)]
  ∧ record_type_or_literal_lit "a"
        (non_empty_record_literal_build (.naturalLit 1) [("a", .naturalLit 2)])
      = Expr.recordLit [("a", .naturalLit 1)] := by
  have hba : ¬ (("b" : String) < "a") := by
    simp
    decide
  refine ⟨?_, ?_, ?_⟩
  · simp [record_type_or_literal_lit, non_empty_record_literal_build,
      btreeFromList, btreeInsert, hba]
  · intro h
    simp [record_type_or_literal_lit, non_empty_record_literal_build,
      btreeFromList, btreeInsert, hba] at h
  · simp [record_type_or_literal_lit, non_empty_record_literal_build,
      btreeFromList, btreeInsert]

/-- C5 amended: the record and union builders collect the fields into a
`BTreeMap`: the resulting field map's label list is strictly sorted by
label — so iteration order is label order, not source order, and each
label occurs at most once, a duplicate label having overwritten the
earlier entry rather than being retained.  Conjuncts: the record-type and
record-literal builders produce exactly the sorted `BTreeMap`-collected
map; that map's labels are strictly sorted; every union field map built by
`non_empty_union_type_or_literal` (the recursive chain over either base
arm) has strictly sorted labels; and `union_type_or_literal`'s union node
carries that map's labels unchanged. -/
theorem record_fields_sorted_dedup (first_label : Label)
    (first_expr : Expr Import) (entries : List (Label × Expr Import)) :
    (record_type_or_literal_ty first_label
        (non_empty_record_type_build first_expr entries)
      = Expr.recordType (btreeInsert (btreeFromList entries) first_label
          first_expr)
  ∧ record_type_or_literal_lit first_label
        (non_empty_record_literal_build first_expr entries)
      = Expr.recordLit (btreeInsert (btreeFromList entries) first_label
          first_expr)
  ∧ ((btreeInsert (btreeFromList entries) first_label first_expr).map
        Prod.fst).Pairwise (· < ·))
  ∧ (∀ (pairs : List (Label × Expr Import)) (l : Label) (e : Expr Import),
      (((non_empty_union_fold pairs
            (non_empty_union_build_entries l e entries)).2.map
          Prod.fst).Pairwise (· < ·))
      ∧ (((non_empty_union_fold pairs
            (non_empty_union_build_single l e)).2.map
          Prod.fst).Pairwise (· < ·)))
  ∧ (∀ m : List (Label × Expr Import),
      union_type_or_literal_build m
        = Expr.unionType (m.map fun p => (p.1, some p.2))
      ∧ ((m.map fun p => (p.1, some p.2)).map Prod.fst) = m.map Prod.fst) := by
  refine ⟨⟨rfl, rfl, ?_⟩, ?_, ?_⟩
  · exact btreeInsert_sorted (btreeFromList entries) first_label first_expr
      (btreeFromList_sorted entries)
  · intro pairs l e
    constructor
    · exact non_empty_union_fold_sorted pairs _
        (by simpa [non_empty_union_build_entries, union_type_entries_build]
          using btreeFromList_sorted entries)
    · exact non_empty_union_fold_sorted pairs _
        (by simp [non_empty_union_build_single, btreeInsert])
  · intro m
    refine ⟨rfl, ?_⟩
    simp

/-- C6 counterexample: `resolve_import` itself surfaces the missing
target file `../b.dhall` as an error result carrying the I/O error — but
`load_dhall_file` on the importing file `d/a.dhall` `unwrap`s that result
in its per-leaf closure, so resolution aborts by panicking instead of
propagating the error. -/
theorem import_leaf_failure_panics :
    resolve_import fsC6 parseC6 1
        ⟨.code, none, .localFile .parent ["b.dhall"]⟩ (.localDir ["d"])
      = .err (.ioError ⟨"missing"⟩)
  ∧ load_dhall_file fsC6 parseC6 2 ["d", "a.dhall"] true = .panic := by
  constructor
  · simp [resolve_import, load_dhall_file, parentDir, fsC6]
  · simp [load_dhall_file, resolve_import, parentDir, fsC6, parseC6, substE]

/-- C6 amended: `load_dhall_file`'s own read and parse failures are
propagated to the caller as error results carrying the underlying I/O or
parse error, and `resolve_import` likewise propagates its target's read
and parse failures; but the per-leaf closure inside `load_dhall_file`'s
resolve branch `unwrap`s, so a failing import leaf encountered during
resolution makes the enclosing resolution panic rather than return that
error (the counterexample). -/
theorem import_errors_propagate
    (fs : Path → Except IOErr String)
    (parse : String → Except ParseErr (Expr Import)) (fuel : Nat) :
    (∀ f ri e, fs f = .error e →
      load_dhall_file fs parse (fuel + 1) f ri = .err (.ioError e))
  ∧ (∀ f ri s pe, fs f = .ok s → parse s = .error pe →
      load_dhall_file fs parse (fuel + 1) f ri = .err (.parseError pe))
  ∧ (∀ path cwd p e, parentDir cwd = some p → fs (p ++ path) = .error e →
      resolve_import fs parse (fuel + 1)
          ⟨.code, none, .localFile .parent path⟩ (.localDir cwd)
        = .err (.ioError e))
  ∧ (∀ path cwd p s pe, parentDir cwd = some p → fs (p ++ path) = .ok s →
      parse s = .error pe →
      resolve_import fs parse (fuel + 1)
          ⟨.code, none, .localFile .parent path⟩ (.localDir cwd)
        = .err (.parseError pe)) := by
  have h1 : ∀ f ri e, fs f = .error e →
      load_dhall_file fs parse (fuel + 1) f ri = .err (.ioError e) := by
    intro f ri e h
    simp only [load_dhall_file, h]
  have h2 : ∀ f ri s pe, fs f = .ok s → parse s = .error pe →
      load_dhall_file fs parse (fuel + 1) f ri = .err (.parseError pe) := by
    intro f ri s pe h hp
    simp only [load_dhall_file, h, hp]
  refine ⟨h1, h2, ?_, ?_⟩
  · intro path cwd p e hcwd h
    rw [resolve_import]
    simp only [hcwd]
    exact h1 (p ++ path) true e h
  · intro path cwd p s pe hcwd h hp
    rw [resolve_import]
    simp only [hcwd]
    exact h2 (p ++ path) true s pe h hp

/-- Witness for C6 (amended) at a concrete input: loading the missing
file `b.dhall` directly returns the error result carrying the I/O
error. -/
theorem import_errors_propagate_witness :
    load_dhall_file fsC6 parseC6 1 ["b.dhall"] true
      = .err (.ioError ⟨"missing"⟩) :=
  (import_errors_propagate fsC6 parseC6 0).1 ["b.dhall"] true ⟨"missing"⟩
    (by simp [fsC6])

/-- C7: `shift` leaves a reference unchanged when the names differ or the
index is below the binder's threshold, and adds `delta` to the index when
the names match and the index is at or above the threshold, whenever the
index arithmetic is defined. -/
theorem shift_formula (y : Label) (m : Nat) (x : Label) (n : Nat)
    (delta : Int) :
    ((x ≠ y ∨ m < n) →
      (V.mk y m).shift delta (V.mk x n) = some (V.mk y m))
  ∧ (x = y → n ≤ m → ∀ k, add_ui m delta = some k →
      (V.mk y m).shift delta (V.mk x n) = some (V.mk y k)
        ∧ (k : Int) = (m : Int) + delta) := by
  constructor
  · intro h
    have hc : ¬ (x = y ∧ n ≤ m) := by
      rcases h with h | h
      · exact fun hx => h hx.1
      · exact fun hx => absurd hx.2 (by omega)
    simp [V.shift, hc]
  · intro hx hnm k hk
    have hc : x = y ∧ n ≤ m := ⟨hx, hnm⟩
    refine ⟨?_, add_ui_some_int m delta k hk⟩
    simp [V.shift, hc, hk]

/-- Witness for C7: shifting `V("a", 1)` by `+2` across the binder
`V("a", 0)` yields `V("a", 3)`. -/
theorem shift_formula_witness :
    (V.mk "a" 1).shift 2 (V.mk "a" 0) = some (V.mk "a" 3)
      ∧ ((3 : Nat) : Int) = ((1 : Nat) : Int) + 2 :=
  (shift_formula "a" 1 "a" 0 2).2 rfl (by decide) 3 (by decide)

/-- C8: shifting by `+1` and then by `-1` with respect to the same binder
variable is the identity wherever both shifts are defined. -/
theorem shift_up_down_identity (v var v' v'' : V)
    (h1 : v.shift 1 var = some v') (h2 : v'.shift (-1) var = some v'') :
    v'' = v := by
  obtain ⟨y, m⟩ := v
  obtain ⟨x, n⟩ := var
  by_cases hc : x = y ∧ n ≤ m
  · have h1' : add_ui m 1 = if m + 1 ≤ USIZE_MAX then some (m + 1) else none := by
      rw [add_ui_nonneg m 1 (by decide)]
      norm_num
    by_cases hle : m + 1 ≤ USIZE_MAX
    · rw [if_pos hle] at h1'
      simp only [V.shift, if_pos hc, h1'] at h1
      cases h1
      have hc2 : x = y ∧ n ≤ m + 1 := ⟨hc.1, by omega⟩
      have hdown : add_ui (m + 1) (-1) = some m := by
        rw [add_ui_neg (m + 1) (-1) (by decide) (by decide)]
        norm_num
      simp only [V.shift, if_pos hc2, hdown] at h2
      cases h2
      rfl
    · rw [if_neg hle] at h1'
      simp only [V.shift, if_pos hc, h1'] at h1
      cases h1
  · simp only [V.shift, if_neg hc] at h1
    cases h1
    simp only [V.shift, if_neg hc] at h2
    cases h2
    rfl

/-- Witness for C8: `V("a", 0)` shifted up then down across `V("a", 0)`
returns to `V("a", 0)`. -/
theorem shift_up_down_identity_witness :
    (V.mk "a" 0).shift 1 (V.mk "a" 0) = some (V.mk "a" 1)
  ∧ (V.mk "a" 1).shift (-1) (V.mk "a" 0) = some (V.mk "a" 0)
  ∧ V.mk "a" 0 = V.mk "a" 0 :=
  ⟨by decide, by decide,
   shift_up_down_identity (V.mk "a" 0) (V.mk "a" 0) (V.mk "a" 1) (V.mk "a" 0)
     (by decide) (by decide)⟩

/-- C9: `shift` is a total function into `Option`: it returns `none`
exactly when the reference is affected (same name, index at or above the
threshold) and the checked index arithmetic fails — by underflow below
zero, overflow past `usize::MAX`, or negating `isize::MIN` — and it is
defined (returns `some`) in every other case, for positive and negative
`delta` alike. -/
theorem shift_none_iff_overflow (y : Label) (m : Nat) (x : Label) (n : Nat)
    (delta : Int) (hm : m ≤ USIZE_MAX) :
    (V.mk y m).shift delta (V.mk x n) = none ↔
      x = y ∧ n ≤ m ∧
        (delta = ISIZE_MIN ∨ (m : Int) + delta < 0
          ∨ (m : Int) + delta > (USIZE_MAX : Int)) := by
  by_cases hc : x = y ∧ n ≤ m
  · rcases hadd : add_ui m delta with _ | k
    · simp only [V.shift, if_pos hc, hadd]
      simp only [hc.1, hc.2, true_and]
      simpa using (add_ui_none_iff m delta hm).mp hadd
    · simp only [V.shift, if_pos hc, hadd]
      simp only [hc.1, hc.2, true_and]
      constructor
      · intro h
        cases h
      · intro h
        have := (add_ui_none_iff m delta hm).mpr h
        rw [hadd] at this
        cases this
  · simp only [V.shift, if_neg hc]
    constructor
    · intro h
      cases h
    · intro h
      exact absurd ⟨h.1, h.2.1⟩ hc

/-- Witness for C9: shifting the reference `V("x", 0)` by `-1` across the
same-named binder at threshold `0` underflows and returns `none`. -/
theorem shift_none_iff_overflow_witness :
    (V.mk "x" 0).shift (-1) (V.mk "x" 0) = none :=
  (shift_none_iff_overflow "x" 0 "x" 0 (-1) (by decide)).mpr
    ⟨rfl, Nat.le_refl 0, Or.inr (Or.inl (by decide))⟩

/-- C10: equality of double literals is bitwise: two `NaiveDouble` values
compare equal exactly when their bit patterns are equal; hence a NaN
literal equals itself (equality is a genuine equivalence relation), while
`+0.0` and `-0.0` compare unequal. -/
theorem naiveDouble_eq_bitwise :
    (∀ a b : NaiveDouble, NaiveDouble.beq a b = true ↔ a.bits = b.bits)
  ∧ NaiveDouble.beq NaiveDouble.nan NaiveDouble.nan = true
  ∧ NaiveDouble.beq NaiveDouble.posZero NaiveDouble.negZero = false
  ∧ Equivalence (fun a b : NaiveDouble => NaiveDouble.beq a b = true) := by
  refine ⟨?_, by decide, by decide, ?_⟩
  · intro a b
    simp [NaiveDouble.beq]
  · constructor
    · intro a
      simp [NaiveDouble.beq]
    · intro a b h
      simp [NaiveDouble.beq] at h ⊢
      omega
    · intro a b c h1 h2
      simp [NaiveDouble.beq] at h1 h2 ⊢
      omega

/-- Witness for C10: the reflexivity component applied at a concrete NaN
literal. -/
theorem naiveDouble_eq_bitwise_witness :
    NaiveDouble.beq ⟨0x7ff8000000000000⟩ ⟨0x7ff8000000000000⟩ = true :=
  (naiveDouble_eq_bitwise.1 ⟨0x7ff8000000000000⟩ ⟨0x7ff8000000000000⟩).mpr rfl

end Dhall
